import Mathlib

/-
Verification of the resume-screener service (FastAPI + Celery + MongoDB +
Pinecone + OpenAI).  The development shallowly embeds the core logic of

  app/services/parser.py        (text extraction, LLM extraction, fallback)
  app/services/embedding.py     (chunking, embedding averaging)
  app/services/vector_store.py  (Pinecone client wrapper)
  app/services/database.py      (MongoDB document store wrapper)
  app/tasks/processing.py       (ingestion orchestrator / state machine)
  app/api/routes/search.py      (similarity search and ranking)

into Lean.  External effects (PDF libraries, the OpenAI LLM and embedding
endpoints, Pinecone transport, MongoDB transport, wall-clock time) are
supplied as explicit oracle inputs; everything the Python code computes from
those inputs is translated function-for-function.  Strings are modelled as
`List Char` (ASCII view: Python's Unicode-aware `\w`, `\s` and `str.strip`
agree with this model on ASCII text).  Floating point quantities (similarity
scores, embedding coordinates, durations) are modelled as rationals.
-/

/-- Python strings are modelled as lists of characters. -/
abbrev Str : Type := List Char

/-- Coerce a Lean string literal to the character-list model. -/
def strToL (s : String) : Str := s.data

/-- Python whitespace for `str.strip` and regex `\s` (ASCII part):
space, tab, newline, carriage return, vertical tab, form feed. -/
def isPyWs (c : Char) : Bool :=
  c = ' ' || c = '\t' || c = '\n' || c = '\r' || c = '\x0b' || c = '\x0c'

/-- Regex `\w` word character (ASCII part): letters, digits, underscore. -/
def isWordChar (c : Char) : Bool := c.isAlpha || c.isDigit || c = '_'

/-- Word character test lifted to an optional character (`none` = outside
the string, which counts as a non-word position for `\b`). -/
def isWordOpt : Option Char → Bool
  | none => false
  | some c => isWordChar c

/-- Regex `\b`: a word boundary lies between two adjacent positions exactly
when one side is a word character and the other is not. -/
def wordBoundary (l r : Option Char) : Bool := isWordOpt l != isWordOpt r

/-- Python `str.lstrip()` (ASCII whitespace). -/
def lstripL (l : Str) : Str := l.dropWhile isPyWs

/-- Python `str.strip()` (ASCII whitespace): drop leading whitespace, then
drop trailing whitespace via a reversal. -/
def pyStrip (l : Str) : Str := ((lstripL l).reverse.dropWhile isPyWs).reverse

/-- Concatenation of a list of strings (used to state preservation facts
about chunking; Python code never materialises this join). -/
def joinStr : List Str → Str
  | [] => []
  | s :: ss => s ++ joinStr ss

-- ### Generic list lemmas used throughout

theorem dropWhile_head_not {p : Char → Bool} :
    ∀ l : Str, l.dropWhile p = [] ∨
      ∃ c t, l.dropWhile p = c :: t ∧ p c = false := by
  intro l
  induction l with
  | nil => exact Or.inl rfl
  | cons c t _ih =>
    by_cases h : p c
    · simpa [List.dropWhile, h] using _ih
    · exact Or.inr ⟨c, t, by simp [List.dropWhile, h], by simpa using h⟩

theorem filter_dropWhile {p q : Char → Bool} (hpq : ∀ c, q c = true → p c = false) :
    ∀ l : Str, (l.dropWhile q).filter p = l.filter p := by
  intro l
  induction l with
  | nil => rfl
  | cons c t ih =>
    by_cases h : q c
    · have : p c = false := hpq c h
      simp [List.dropWhile, h, List.filter, this, ih]
    · simp [List.dropWhile, h]

theorem filter_pyStrip {p : Char → Bool} (hws : ∀ c, isPyWs c = true → p c = false)
    (l : Str) : (pyStrip l).filter p = l.filter p := by
  unfold pyStrip lstripL
  rw [List.filter_reverse, filter_dropWhile hws, List.filter_reverse,
      List.reverse_reverse, filter_dropWhile hws]

/-- A nonempty stripped string contains a non-whitespace character (its last
character survives the trailing `dropWhile`). -/
theorem pyStrip_has_nonws {l : Str} (h : pyStrip l ≠ []) :
    ∃ c ∈ pyStrip l, isPyWs c = false := by
  unfold pyStrip at h ⊢
  rcases dropWhile_head_not (p := isPyWs) ((lstripL l).reverse) with h0 | ⟨c, t, heq, hc⟩
  · exact absurd (by simp [h0]) h
  · exact ⟨c, by simp [heq], hc⟩

-- ### embedding.py — EmbeddingService.create_chunks

/-- Locate the first occurrence of the two-character separator `"\n\n"`
(Python `text.split('\n\n')` scans left to right, non-overlapping): returns
the part before the separator and the remainder after it. -/
def splitTwoNl : Str → Option (Str × Str)
  | [] => none
  | c :: rest =>
    if c = '\n' ∧ rest.head? = some '\n' then some ([], rest.tail)
    else
      match splitTwoNl rest with
      | some (pre, post) => some (c :: pre, post)
      | none => none

theorem splitTwoNl_eq : ∀ {l pre post : Str}, splitTwoNl l = some (pre, post) →
    l = pre ++ '\n' :: '\n' :: post := by
  intro l
  induction l with
  | nil => intro pre post h; simp [splitTwoNl] at h
  | cons c rest ih =>
    intro pre post h
    rw [splitTwoNl] at h
    by_cases hnl : c = '\n' ∧ rest.head? = some '\n'
    · rw [if_pos hnl] at h
      obtain ⟨hc, hh⟩ := hnl
      cases rest with
      | nil => simp at hh
      | cons r t =>
        simp at hh
        simp at h
        simp [hc, hh, ← h.1, ← h.2]
    · rw [if_neg hnl] at h
      match heq : splitTwoNl rest with
      | some (pre1, post1) =>
        rw [heq] at h
        simp at h
        rw [← h.1, ← h.2, ih heq]
        simp
      | none => rw [heq] at h; simp at h

theorem splitTwoNl_length {l pre post : Str} (h : splitTwoNl l = some (pre, post)) :
    post.length < l.length := by
  have := splitTwoNl_eq h
  subst this
  simp
  omega

/-- The iteration of `splitTwoNl`, made structurally recursive with a fuel
argument so that it evaluates inside the kernel; each step strictly
shortens the remainder, so fuel `length + 1` is never exhausted (see
`splitParas_unfold` for the fuel-free recursion). -/
def splitParasF : Nat → Str → List Str
  | 0, l => [l]
  | fuel + 1, l =>
    match splitTwoNl l with
    | none => [l]
    | some (pre, post) => pre :: splitParasF fuel post

/-- Python `text.split('\n\n')`: repeatedly split off the part before the
next `"\n\n"`; when no separator remains the rest is the final piece
(so the result is always nonempty, and `''.split -> ['']`). -/
def splitParas (l : Str) : List Str := splitParasF (l.length + 1) l

theorem splitParasF_fuel : ∀ {f1 f2 : Nat} {l : Str}, l.length < f1 → l.length < f2 →
    splitParasF f1 l = splitParasF f2 l := by
  intro f1
  induction f1 with
  | zero => intro f2 l h1 _; omega
  | succ f ih =>
    intro f2 l h1 h2
    cases f2 with
    | zero => omega
    | succ f2a =>
      cases heq : splitTwoNl l with
      | none => simp [splitParasF, heq]
      | some pp =>
        obtain ⟨pre, post⟩ := pp
        have hlen := splitTwoNl_length heq
        simp [splitParasF, heq]
        exact ih (by omega) (by omega)

/-- The recursion `splitParas` implements. -/
theorem splitParas_unfold (l : Str) : splitParas l =
    match splitTwoNl l with
    | none => [l]
    | some (pre, post) => pre :: splitParas post := by
  rw [splitParas, splitParasF]
  cases heq : splitTwoNl l with
  | none => simp
  | some pp =>
    obtain ⟨pre, post⟩ := pp
    have hlen := splitTwoNl_length heq
    simp [splitParas]
    exact splitParasF_fuel (by omega) (by omega)

/-- Splitting on `"\n\n"` loses only newline characters: any filter that
discards `'\n'` sees the same characters before and after the split. -/
theorem filter_splitParas {p : Char → Bool} (hnl : p '\n' = false) (l : Str) :
    joinStr ((splitParas l).map (fun s => s.filter p)) = l.filter p := by
  rw [splitParas_unfold]
  split
  · simp [joinStr]
  · rename_i pre post h
    have hrec := filter_splitParas hnl post
    have hl := splitTwoNl_eq h
    subst hl
    simp [joinStr, hrec, List.filter_append, List.filter, hnl]
termination_by l.length
decreasing_by exact splitTwoNl_length (by assumption)

/-- The sentence delimiters of `re.split(r'[.!?]+', paragraph)`. -/
def isDelim (c : Char) : Bool := c = '.' || c = '!' || c = '?'

/-- Locate the first maximal run of `[.!?]+` delimiters: returns the piece
before the run and the remainder after the whole run (the `+` is greedy, so
consecutive delimiters are consumed together). -/
def splitDelimRun : Str → Option (Str × Str)
  | [] => none
  | c :: rest =>
    if isDelim c then some ([], rest.dropWhile isDelim)
    else
      match splitDelimRun rest with
      | some (pre, post) => some (c :: pre, post)
      | none => none

theorem length_dropWhile_le (p : Char → Bool) : ∀ l : Str, (l.dropWhile p).length ≤ l.length := by
  intro l
  induction l with
  | nil => simp
  | cons c t ih =>
    by_cases h : p c
    · simp [List.dropWhile, h]; omega
    · simp [List.dropWhile, h]

theorem splitDelimRun_length : ∀ {l pre post : Str},
    splitDelimRun l = some (pre, post) → post.length < l.length := by
  intro l
  induction l with
  | nil => intro pre post h; simp [splitDelimRun] at h
  | cons c rest ih =>
    intro pre post h
    rw [splitDelimRun] at h
    by_cases hd : isDelim c
    · rw [if_pos hd] at h
      simp at h
      have := length_dropWhile_le isDelim rest
      rw [← h.2]
      simp
      omega
    · rw [if_neg hd] at h
      match heq : splitDelimRun rest with
      | some (pre1, post1) =>
        rw [heq] at h
        simp at h
        have := ih heq
        rw [← h.2]
        simp
        omega
      | none => rw [heq] at h; simp at h

/-- Splitting off a delimiter run loses only delimiter characters. -/
theorem filter_splitDelimRun {p : Char → Bool} (hd : ∀ c, isDelim c = true → p c = false) :
    ∀ {l pre post : Str}, splitDelimRun l = some (pre, post) →
      l.filter p = pre.filter p ++ post.filter p := by
  intro l
  induction l with
  | nil => intro pre post h; simp [splitDelimRun] at h
  | cons c rest ih =>
    intro pre post h
    rw [splitDelimRun] at h
    by_cases hdc : isDelim c
    · rw [if_pos hdc] at h
      simp at h
      rw [h.1, ← h.2]
      simp [List.filter_cons, hd c hdc, filter_dropWhile hd]
    · rw [if_neg hdc] at h
      match heq : splitDelimRun rest with
      | some (pre1, post1) =>
        rw [heq] at h
        simp at h
        rw [← h.1, ← h.2]
        by_cases hp : p c <;> simp [List.filter_cons, hp, ih heq]
      | none => rw [heq] at h; simp at h

/-- The iteration of `splitDelimRun`, fuel-bounded for the same reason as
`splitParasF` (each step strictly shortens the remainder). -/
def splitDelimsF : Nat → Str → List Str
  | 0, l => [l]
  | fuel + 1, l =>
    match splitDelimRun l with
    | none => [l]
    | some (pre, post) => pre :: splitDelimsF fuel post

/-- Python `re.split(r'[.!?]+', paragraph)`: the pieces between maximal
delimiter runs (delimiters themselves are dropped). -/
def splitDelims (l : Str) : List Str := splitDelimsF (l.length + 1) l

theorem splitDelimsF_fuel : ∀ {f1 f2 : Nat} {l : Str}, l.length < f1 → l.length < f2 →
    splitDelimsF f1 l = splitDelimsF f2 l := by
  intro f1
  induction f1 with
  | zero => intro f2 l h1 _; omega
  | succ f ih =>
    intro f2 l h1 h2
    cases f2 with
    | zero => omega
    | succ f2a =>
      cases heq : splitDelimRun l with
      | none => simp [splitDelimsF, heq]
      | some pp =>
        obtain ⟨pre, post⟩ := pp
        have hlen := splitDelimRun_length heq
        simp [splitDelimsF, heq]
        exact ih (by omega) (by omega)

/-- The recursion `splitDelims` implements. -/
theorem splitDelims_unfold (l : Str) : splitDelims l =
    match splitDelimRun l with
    | none => [l]
    | some (pre, post) => pre :: splitDelims post := by
  rw [splitDelims, splitDelimsF]
  cases heq : splitDelimRun l with
  | none => simp
  | some pp =>
    obtain ⟨pre, post⟩ := pp
    have hlen := splitDelimRun_length heq
    simp [splitDelims]
    exact splitDelimsF_fuel (by omega) (by omega)

theorem filter_splitDelims {p : Char → Bool} (hd : ∀ c, isDelim c = true → p c = false)
    (l : Str) : joinStr ((splitDelims l).map (fun s => s.filter p)) = l.filter p := by
  rw [splitDelims_unfold]
  split
  · simp [joinStr]
  · rename_i pre post h
    have hrec := filter_splitDelims hd post
    rw [filter_splitDelimRun hd h]
    simp [joinStr, hrec]
termination_by l.length
decreasing_by exact splitDelimRun_length (by assumption)

/-- The sentence-accumulation loop of `create_chunks` for one long paragraph:
stripped-empty sentences are skipped; while the running chunk plus the next
sentence stays under the threshold the sentence is appended together with
`". "`; otherwise the running chunk is flushed (stripped) and a new running
chunk starts from the sentence.  The final running chunk is flushed at the
end.  `cur` is the running chunk (`current_chunk` in the source). -/
def greedyChunks (chunkSize : Nat) : List Str → Str → List Str
  | [], cur => if cur = [] then [] else [pyStrip cur]
  | s :: rest, cur =>
    let s1 := pyStrip s
    if s1 = [] then greedyChunks chunkSize rest cur
    else if cur.length + s1.length < chunkSize then
      greedyChunks chunkSize rest (cur ++ s1 ++ ['.', ' '])
    else
      (if cur = [] then [] else [pyStrip cur]) ++ greedyChunks chunkSize rest (s1 ++ ['.', ' '])

/-- One paragraph's contribution to `create_chunks`: a short paragraph (its
stripped length below the threshold) becomes a single stripped chunk if
nonempty, a long paragraph is re-split on `[.!?]+` sentence boundaries and
packed greedily. -/
def chunksOfParagraph (chunkSize : Nat) (p : Str) : List Str :=
  if (pyStrip p).length < chunkSize then
    if pyStrip p = [] then [] else [pyStrip p]
  else greedyChunks chunkSize (splitDelims p) []

/-- The chunk lists of consecutive paragraphs are accumulated in order
(the imperative `chunks.append` loop). -/
def chunksConcat (chunkSize : Nat) : List Str → List Str
  | [] => []
  | p :: ps => chunksOfParagraph chunkSize p ++ chunksConcat chunkSize ps

/-- `EmbeddingService.create_chunks`: empty input gives no chunks, otherwise
the text is split into paragraphs on blank lines and each paragraph is
chunked. -/
def create_chunks (chunkSize : Nat) (text : Str) : List Str :=
  if text = [] then [] else chunksConcat chunkSize (splitParas text)

/-- Characters that survive both whitespace-trimming and sentence-delimiter
replacement: everything except ASCII whitespace and `.` `!` `?`. -/
def keepChar (c : Char) : Bool := !(isPyWs c || isDelim c)

theorem keepChar_ws {c : Char} (h : isPyWs c = true) : keepChar c = false := by
  simp [keepChar, h]

theorem keepChar_delim {c : Char} (h : isDelim c = true) : keepChar c = false := by
  simp [keepChar, h]

theorem keepChar_dot : keepChar '.' = false := by decide

theorem keepChar_sp : keepChar ' ' = false := by decide

theorem filter_keep_pyStrip (l : Str) : (pyStrip l).filter keepChar = l.filter keepChar :=
  filter_pyStrip (fun _ h => keepChar_ws h) l

/-- The greedy loop preserves every kept character: the characters of the
running chunk come first, then the kept characters of the remaining
sentences in order. -/
theorem greedyChunks_filter (chunkSize : Nat) :
    ∀ (ss : List Str) (cur : Str),
      (joinStr (greedyChunks chunkSize ss cur)).filter keepChar =
        cur.filter keepChar ++ joinStr (ss.map (fun s => s.filter keepChar)) := by
  intro ss
  induction ss with
  | nil =>
    intro cur
    by_cases hc : cur = []
    · simp [greedyChunks, hc, joinStr]
    · simp [greedyChunks, hc, joinStr, filter_keep_pyStrip]
  | cons s rest ih =>
    intro cur
    rw [greedyChunks]
    by_cases h1 : pyStrip s = []
    · rw [if_pos h1]
      have hs : s.filter keepChar = [] := by
        rw [← filter_keep_pyStrip s, h1]; rfl
      simp [ih, joinStr, hs]
    · rw [if_neg h1]
      by_cases h2 : cur.length + (pyStrip s).length < chunkSize
      · rw [if_pos h2]
        rw [ih]
        simp [joinStr, List.filter_append, keepChar_dot, keepChar_sp,
          filter_keep_pyStrip, List.filter_cons]
      · rw [if_neg h2]
        by_cases hc : cur = []
        · simp [hc, joinStr, ih, List.filter_append, keepChar_dot, keepChar_sp,
            filter_keep_pyStrip, List.filter_cons]
        · simp [hc, joinStr, ih, List.filter_append, keepChar_dot, keepChar_sp,
            filter_keep_pyStrip, List.filter_cons]

theorem chunksOfParagraph_filter (chunkSize : Nat) (p : Str) :
    (joinStr (chunksOfParagraph chunkSize p)).filter keepChar = p.filter keepChar := by
  rw [chunksOfParagraph]
  by_cases hshort : (pyStrip p).length < chunkSize
  · rw [if_pos hshort]
    by_cases he : pyStrip p = []
    · rw [if_pos he]
      have := filter_keep_pyStrip p
      rw [he] at this
      simp [joinStr, ← this]
    · rw [if_neg he]; simp [joinStr, filter_keep_pyStrip]
  · rw [if_neg hshort]
    rw [greedyChunks_filter]
    simp [filter_splitDelims (fun c h => keepChar_delim h)]

theorem chunksConcat_filter (chunkSize : Nat) :
    ∀ ps : List Str,
      (joinStr (chunksConcat chunkSize ps)).filter keepChar =
        joinStr (ps.map (fun s => s.filter keepChar)) := by
  intro ps
  induction ps with
  | nil => simp [chunksConcat, joinStr]
  | cons p rest ih =>
    have hj : ∀ a b : List Str, joinStr (a ++ b) = joinStr a ++ joinStr b := by
      intro a
      induction a with
      | nil => simp [joinStr]
      | cons x xs ihx => intro b; simp [joinStr, ihx, List.append_assoc]
    simp [chunksConcat, joinStr, hj, List.filter_append, ih, chunksOfParagraph_filter]

/-- The running chunk is either empty or contains a non-whitespace
character; every chunk the greedy loop emits then contains one too. -/
theorem greedyChunks_mem (chunkSize : Nat) :
    ∀ (ss : List Str) (cur : Str),
      (cur = [] ∨ ∃ c ∈ cur, isPyWs c = false) →
      ∀ chunk ∈ greedyChunks chunkSize ss cur,
        chunk ≠ [] ∧ ∃ c ∈ chunk, isPyWs c = false := by
  intro ss
  induction ss with
  | nil =>
    intro cur hcur chunk hmem
    rw [greedyChunks] at hmem
    by_cases hc : cur = []
    · simp [hc] at hmem
    · rw [if_neg hc] at hmem
      simp at hmem
      subst hmem
      rcases hcur with h | ⟨c, hcin, hcw⟩
      · exact absurd h hc
      · have hne : pyStrip cur ≠ [] := by
          intro habs
          have h1 := filter_pyStrip (p := fun c => !isPyWs c)
            (fun c h => by simp [h]) cur
          rw [habs] at h1
          have : c ∈ cur.filter (fun c => !isPyWs c) := by
            simp [List.mem_filter, hcin, hcw]
          rw [← h1] at this
          simp at this
        exact ⟨hne, pyStrip_has_nonws hne⟩
  | cons s rest ih =>
    intro cur hcur chunk hmem
    rw [greedyChunks] at hmem
    by_cases h1 : pyStrip s = []
    · rw [if_pos h1] at hmem
      exact ih cur hcur chunk hmem
    · rw [if_neg h1] at hmem
      have hdotin : ∀ pre0 : Str, ∃ c ∈ pre0 ++ ['.', ' '], isPyWs c = false := by
        intro pre0
        exact ⟨'.', by simp, by decide⟩
      by_cases h2 : cur.length + (pyStrip s).length < chunkSize
      · rw [if_pos h2] at hmem
        refine ih _ (Or.inr ?_) chunk hmem
        obtain ⟨c, hcin, hcw⟩ := hdotin (cur ++ pyStrip s)
        exact ⟨c, by simpa using hcin, hcw⟩
      · rw [if_neg h2] at hmem
        rw [List.mem_append] at hmem
        rcases hmem with hflush | hrest
        · by_cases hc : cur = []
          · simp [hc] at hflush
          · rw [if_neg hc] at hflush
            simp at hflush
            subst hflush
            rcases hcur with h | ⟨c, hcin, hcw⟩
            · exact absurd h hc
            · have hne : pyStrip cur ≠ [] := by
                intro habs
                have hfp := filter_pyStrip (p := fun c => !isPyWs c)
                  (fun c h => by simp [h]) cur
                rw [habs] at hfp
                have : c ∈ cur.filter (fun c => !isPyWs c) := by
                  simp [List.mem_filter, hcin, hcw]
                rw [← hfp] at this
                simp at this
              exact ⟨hne, pyStrip_has_nonws hne⟩
        · exact ih _ (Or.inr (hdotin (pyStrip s))) chunk hrest

theorem chunksOfParagraph_mem (chunkSize : Nat) (p : Str) :
    ∀ chunk ∈ chunksOfParagraph chunkSize p,
      chunk ≠ [] ∧ ∃ c ∈ chunk, isPyWs c = false := by
  intro chunk hmem
  rw [chunksOfParagraph] at hmem
  by_cases hshort : (pyStrip p).length < chunkSize
  · rw [if_pos hshort] at hmem
    by_cases he : pyStrip p = []
    · simp [he] at hmem
    · rw [if_neg he] at hmem
      simp at hmem
      subst hmem
      exact ⟨he, pyStrip_has_nonws he⟩
  · rw [if_neg hshort] at hmem
    exact greedyChunks_mem chunkSize (splitDelims p) [] (Or.inl rfl) chunk hmem

theorem create_chunks_mem (chunkSize : Nat) (text : Str) :
    ∀ chunk ∈ create_chunks chunkSize text,
      chunk ≠ [] ∧ ∃ c ∈ chunk, isPyWs c = false := by
  intro chunk hmem
  rw [create_chunks] at hmem
  by_cases ht : text = []
  · simp [ht] at hmem
  · rw [if_neg ht] at hmem
    generalize splitParas text = ps at hmem
    induction ps with
    | nil => simp [chunksConcat] at hmem
    | cons p rest ih =>
      rw [chunksConcat, List.mem_append] at hmem
      rcases hmem with h | h
      · exact chunksOfParagraph_mem chunkSize p chunk h
      · exact ih h

theorem create_chunks_filter (chunkSize : Nat) (text : Str) :
    (joinStr (create_chunks chunkSize text)).filter keepChar = text.filter keepChar := by
  rw [create_chunks]
  by_cases ht : text = []
  · simp [ht, joinStr]
  · rw [if_neg ht, chunksConcat_filter,
      filter_splitParas (p := keepChar) (keepChar_ws (by decide))]

-- ### parser.py — the fallback regexes of ResumeParser._fallback_extraction
--
-- Python `re.search` returns the match at the leftmost starting position;
-- at a given position alternatives are explored by backtracking, greedy
-- quantifiers longest-first.  The matchers below implement exactly that
-- exploration order for the four concrete patterns in the source.

/-- Character class `[A-Za-z0-9._%+-]` (local part of the email pattern). -/
def isLocalChar (c : Char) : Bool :=
  c.isAlpha || c.isDigit || c = '.' || c = '_' || c = '%' || c = '+' || c = '-'

/-- Character class `[A-Za-z0-9.-]` (domain part of the email pattern). -/
def isDomainChar (c : Char) : Bool := c.isAlpha || c.isDigit || c = '.' || c = '-'

/-- Character class `[A-Z|a-z]` of the email pattern — note it literally
contains `'|'` in the source. -/
def isTldChar (c : Char) : Bool :=
  ('A' ≤ c && c ≤ 'Z') || c = '|' || ('a' ≤ c && c ≤ 'z')

/-- Length of the maximal run of `p`-characters at the head. -/
def takeRunLen (p : Char → Bool) (l : Str) : Nat := (l.takeWhile p).length

/-- Try `n, n-1, ..., 1` and return the first value satisfying `p`
(the order in which a greedy quantifier gives back characters). -/
def findDownFrom (p : Nat → Bool) : Nat → Option Nat
  | 0 => none
  | n + 1 => if p (n + 1) then some (n + 1) else findDownFrom p n

/-- Match `[A-Z|a-z]{2,}\b` at the head of `rest2`: the quantifier greedily
takes the maximal TLD-character run and gives back characters until the
trailing word boundary holds (at least 2 must remain). -/
def tldLen (rest2 : Str) : Option Nat :=
  findDownFrom
    (fun jj => decide (2 ≤ jj) && wordBoundary rest2[jj - 1]? rest2[jj]?)
    (takeRunLen isTldChar rest2)

/-- Match `[A-Za-z0-9.-]+\.[A-Z|a-z]{2,}\b` at the head of `rest` (the part
after the `'@'`).  The greedy `+` first takes the maximal domain run of
length `n`; the following `\.` can only succeed after giving back to some
`c < n` with `rest[c] = '.'` (the character after a maximal run is never a
domain character, in particular never `'.'`), `c` tried largest-first. -/
def domainLen (rest : Str) : Option Nat :=
  match findDownFrom
      (fun c => decide (rest[c]? = some '.') && (tldLen (rest.drop (c + 1))).isSome)
      (takeRunLen isDomainChar rest - 1) with
  | none => none
  | some c =>
    match tldLen (rest.drop (c + 1)) with
    | some jj => some (c + 1 + jj)
    | none => none

/-- Match the full email pattern
`\b[A-Za-z0-9._%+-]+@[A-Za-z0-9.-]+\.[A-Z|a-z]{2,}\b` anchored at the
current position (`prev` is the character just before it); returns the
length of the match.  The local `+` needs no backtracking because `'@'` is
not a local character, so the maximal run is the only candidate. -/
def emailAt (prev : Option Char) (l : Str) : Option Nat :=
  match l with
  | [] => none
  | c :: _ =>
    if wordBoundary prev (some c) then
      let a := takeRunLen isLocalChar l
      if a = 0 then none
      else
        match l.drop a with
        | '@' :: rest =>
          match domainLen rest with
          | some dlen => some (a + 1 + dlen)
          | none => none
        | _ => none
    else none

/-- `re.search(email_pattern, text).group()`: scan starting positions left
to right, return the first match. -/
def reSearchEmailGo (prev : Option Char) : Str → Option Str
  | [] => none
  | c :: rest =>
    match emailAt prev (c :: rest) with
    | some n => some ((c :: rest).take n)
    | none => reSearchEmailGo (some c) rest

def reSearchEmail (l : Str) : Option Str := reSearchEmailGo none l

/-- Character class `[-.\s]` of the phone pattern (ASCII view of `\s`). -/
def isSepChar (c : Char) : Bool := c = '-' || c = '.' || isPyWs c

/-- Ordered depth-first choice: try each candidate in order, return the
first continuation that succeeds (this is exactly how the backtracking
engine explores ordered alternatives). -/
def firstSome {α β : Type} : List α → (α → Option β) → Option β
  | [], _ => none
  | a :: rest, f =>
    match f a with
    | some b => some b
    | none => firstSome rest f

/-- Candidates for an optional single character `X?`: consume it if it is
present (tried first — the quantifier is greedy), then leave it. -/
def optConsume (p : Char → Bool) : Str → List (Str × Str)
  | [] => [([], [])]
  | c :: rest => if p c then [([c], rest), ([], c :: rest)] else [([], c :: rest)]

/-- Match exactly `n` digits (`[0-9]{n}` — a fixed count, no backtracking). -/
def takeDigits : Nat → Str → Option (Str × Str)
  | 0, l => some ([], l)
  | _ + 1, [] => none
  | n + 1, c :: rest =>
    if c.isDigit then
      match takeDigits n rest with
      | some (ds, rem) => some (c :: ds, rem)
      | none => none
    else none

/-- Match the phone pattern
`(\+?1?[-.\s]?)?\(?([0-9]{3})\)?[-.\s]?([0-9]{3})[-.\s]?([0-9]{4})`
anchored at the current position and return `''.join(match.groups())`,
i.e. group 1 (the optional prefix, as matched) followed by the three digit
groups — the optional parens and separators between the digit groups are
not part of any group and are dropped by the join.  The skip branch of the
outer `( ... )?` group is explored only after the branch in which the group
matched the empty string, and both leave the position unchanged, so the
skip branch (whose group would be `None` and make `''.join` raise) can
never yield the first overall match; it is therefore not represented. -/
def phoneAt (l : Str) : Option Str :=
  firstSome (optConsume (fun c => c = '+') l) fun pl1 =>
  firstSome (optConsume (fun c => c = '1') pl1.2) fun pl2 =>
  firstSome (optConsume isSepChar pl2.2) fun pl3 =>
  firstSome (optConsume (fun c => c = '(') pl3.2) fun pl4 =>
  match takeDigits 3 pl4.2 with
  | none => none
  | some (d1, r1) =>
    firstSome (optConsume (fun c => c = ')') r1) fun pl5 =>
    firstSome (optConsume isSepChar pl5.2) fun pl6 =>
    match takeDigits 3 pl6.2 with
    | none => none
    | some (d2, r2) =>
      firstSome (optConsume isSepChar r2) fun pl7 =>
      match takeDigits 4 pl7.2 with
      | none => none
      | some (d3, _) => some (pl1.1 ++ pl2.1 ++ pl3.1 ++ d1 ++ d2 ++ d3)

/-- `re.search(phone_pattern, text)` followed by `''.join(groups())`:
leftmost starting position wins. -/
def rePhoneSearch : Str → Option Str
  | [] => none
  | c :: rest =>
    match phoneAt (c :: rest) with
    | some g => some g
    | none => rePhoneSearch rest

/-- Match a literal string at the head, returning the remainder. -/
def dropLit : Str → Str → Option Str
  | [], l => some l
  | _ :: _, [] => none
  | c :: ps, x :: xs => if x = c then dropLit ps xs else none

/-- Candidates for an optional literal `(?:lit)?`: consume it if present
(tried first), then leave it. -/
def optLit (lit : Str) (l : Str) : List (Str × Str) :=
  match dropLit lit l with
  | some r => [(lit, r), ([], l)]
  | none => [([], l)]

/-- Character class `[a-zA-Z0-9-]` (LinkedIn handle). -/
def isHandleChar (c : Char) : Bool := c.isAlpha || c.isDigit || c = '-'

/-- Match `https?://(?:www\.)?linkedin\.com/in/[a-zA-Z0-9-]+` anchored at
the current position; returns the matched substring (`group()`).  The final
`+` is greedy with no following pattern element, so it takes the maximal
handle run. -/
def linkedinAt (l : Str) : Option Str :=
  match dropLit (strToL "http") l with
  | none => none
  | some r1 =>
    firstSome (optConsume (fun c => c = 's') r1) fun pl =>
    match dropLit (strToL "://") pl.2 with
    | none => none
    | some r2 =>
      firstSome (optLit (strToL "www.") r2) fun plw =>
      match dropLit (strToL "linkedin.com/in/") plw.2 with
      | none => none
      | some r3 =>
        let run := r3.takeWhile isHandleChar
        if run = [] then none
        else
          some (strToL "http" ++ pl.1 ++ strToL "://" ++ plw.1 ++
            strToL "linkedin.com/in/" ++ run)

/-- `re.search(linkedin_pattern, text).group()`. -/
def reLinkedinSearch : Str → Option Str
  | [] => none
  | c :: rest =>
    match linkedinAt (c :: rest) with
    | some g => some g
    | none => reLinkedinSearch rest

/-- `re.findall(r'\b(?:[A-Za-z]+)\b', text)`: non-overlapping matches, left
to right.  A match is a maximal run of word characters consisting entirely
of letters (a run adjacent to a digit or underscore fails the trailing
`\b` at every backtracking depth, and positions inside a word run fail the
leading `\b`); only whether the previous character is a word character
matters, so the scanner carries that single bit. -/
def skillsScanF : Nat → Bool → Str → List Str
  | 0, _, _ => []
  | fuel + 1, prevWord, l =>
    match l with
    | [] => []
    | c :: rest =>
      if isWordChar c && !prevWord then
        let run := (c :: rest).takeWhile isWordChar
        if run.all (fun x => x.isAlpha) then
          run :: skillsScanF fuel true ((c :: rest).drop run.length)
        else skillsScanF fuel true ((c :: rest).drop run.length)
      else skillsScanF fuel (isWordChar c) rest

/-- The scanner consumes at least one character per step, so fuel
`length + 1` is never exhausted. -/
def reFindallSkills (l : Str) : List Str := skillsScanF (l.length + 1) false l

-- ### parser.py — structured extraction data model

/-- The `contact_info` dictionary produced by the extraction stage: the
primary (LLM) path may leave any entry `None`, the fallback path always
fills plain strings. -/
structure ContactDict where
  email : Option Str
  phone : Option Str
  linkedin : Option Str
deriving DecidableEq

/-- One entry of the `experience` list as returned by the extraction stage
(all fields are required strings in the LLM schema). -/
structure ExpDict where
  company : Str
  position : Str
  duration : Str
  description : Str
deriving DecidableEq

/-- One entry of the `education` list as returned by the extraction stage. -/
structure EduDict where
  degree : Str
  institution : Str
  year : Option Str
deriving DecidableEq

/-- The dictionary returned by `extract_structured_data_with_openai` /
`_fallback_extraction`. -/
structure StructuredData where
  skills : List Str
  experience : List ExpDict
  education : List EduDict
  contact_info : ContactDict
  summary : Str
deriving DecidableEq

/-- `ResumeParser._fallback_extraction`: deterministic regex extraction.
Every regex miss yields the empty string (`match.group() if match else ""`),
experience and education are always empty, the summary is `text[:200]` for
nonempty text and a fixed placeholder for empty text. -/
def fallback_extraction (text : Str) : StructuredData :=
  { skills := reFindallSkills text
    experience := []
    education := []
    contact_info :=
      { email := some ((reSearchEmail text).getD [])
        phone := some ((rePhoneSearch text).getD [])
        linkedin := some ((reLinkedinSearch text).getD []) }
    summary := if text = [] then strToL "Resume content extracted" else text.take 200 }

/-- `ResumeParser.extract_structured_data_with_openai`: the primary call
either returns a schema-conforming record (`some d`) or raises (`none`);
any raise is caught and answered with the deterministic fallback. -/
def extract_structured_data_with_openai (llm : Option StructuredData) (text : Str) :
    StructuredData :=
  match llm with
  | some d => d
  | none => fallback_extraction text

-- ### models/resume.py — document data model (Mongo record view)

inductive ResumeStatus where
  | processing
  | processed
  | failed
deriving DecidableEq

/-- `Experience` of `models/resume.py` (`start_date`/`end_date` optional). -/
structure Experience where
  company : Str
  position : Str
  duration : Str
  description : Str
  start_date : Option Str
  end_date : Option Str
deriving DecidableEq

/-- `Education` of `models/resume.py` (`gpa` modelled as a rational). -/
structure Education where
  degree : Str
  institution : Str
  year : Option Str
  gpa : Option ℚ
deriving DecidableEq

/-- The `contact_info : Dict[str, str]` of `ResumeContent` after pydantic
validation: all three entries are plain strings (a `None` value fails
validation). -/
structure ContactStrs where
  email : Str
  phone : Str
  linkedin : Str
deriving DecidableEq

/-- `ResumeContent` of `models/resume.py`. -/
structure ResumeContent where
  text : Str
  skills : List Str
  experience : List Experience
  education : List Education
  contact_info : ContactStrs
  summary : Option Str
deriving DecidableEq

/-- `ResumeMetadata` of `models/resume.py` (durations and timestamps are
oracle-supplied wall-clock values). -/
structure ResumeMetadata where
  file_size : Nat
  pages : Nat
  processing_time : Option ℚ
  extracted_at : Option Nat
deriving DecidableEq

/-- The stored resume record (the Mongo document: the pydantic `Resume`
model plus the `error_message` field that the failure path writes with
`$set` — the pydantic model ignores that extra field when reading). -/
structure Resume where
  filename : Str
  upload_date : Nat
  status : ResumeStatus
  content : Option ResumeContent
  metadata : Option ResumeMetadata
  vector_id : Option Str
  error_message : Option Str
deriving DecidableEq

/-- pydantic validation of `contact_info : Dict[str, str]`: succeeds only
when every value is a string (not `None`). -/
def validateContact (c : ContactDict) : Option ContactStrs :=
  match c.email, c.phone, c.linkedin with
  | some e, some p, some li => some { email := e, phone := p, linkedin := li }
  | _, _, _ => none

/-- `ResumeParser.parse_resume`: text extraction result and the LLM call
outcome are oracle inputs (`extractResult` carries the raised message on
failure, `llm = none` means the LLM call raised).  The structured stage
never raises (fallback), but constructing `ResumeContent` from a primary
record with a `None` contact value raises a pydantic `ValidationError`,
which the function re-raises.  `procTime`/`extractedAt` are the
wall-clock oracle values for the metadata fields. -/
def parse_resume (extractResult : Except Str (Str × Nat)) (llm : Option StructuredData)
    (procTime : Option ℚ) (extractedAt : Option Nat) (fileSize : Nat) :
    Except Str (ResumeContent × ResumeMetadata) :=
  match extractResult with
  | .error e => .error e
  | .ok (text, pages) =>
    let sd := extract_structured_data_with_openai llm text
    match validateContact sd.contact_info with
    | none => .error (strToL "ValidationError")
    | some ci =>
      .ok ({ text := text
             skills := sd.skills
             experience := sd.experience.map (fun e =>
               { company := e.company, position := e.position,
                 duration := e.duration, description := e.description,
                 start_date := none, end_date := none })
             education := sd.education.map (fun e =>
               { degree := e.degree, institution := e.institution,
                 year := e.year, gpa := none })
             contact_info := ci
             summary := some sd.summary },
           { file_size := fileSize, pages := pages,
             processing_time := procTime, extracted_at := extractedAt })

-- ### parser.py — ResumeParser.extract_text

/-- The page loop shared by both extraction passes: pages whose extracted
text is falsy (`None` or empty) are skipped, the others are appended with a
trailing newline. -/
def collectPages : List (Option Str) → Str
  | [] => []
  | p :: rest =>
    (match p with
     | some t => if t = [] then [] else t ++ ['\n']
     | none => []) ++ collectPages rest

/-- `ResumeParser.extract_text`: run the pdfplumber pass; if the stripped
text is shorter than 100 characters, run the PyPDF2 pass as well — its page
texts are appended to the same `text` variable (which is never reset) and
the page count is taken from the PyPDF2 reader.  The returned text is
stripped. -/
def extract_text (plumberPages pypdfPages : List (Option Str)) : Str × Nat :=
  let text1 := collectPages plumberPages
  if (pyStrip text1).length < 100 then
    (pyStrip (text1 ++ collectPages pypdfPages), pypdfPages.length)
  else
    (pyStrip text1, plumberPages.length)

-- ### embedding.py — create_resume_embeddings / averaging

/-- The chunk list assembled by `create_resume_embeddings`: the first 1000
characters of the text, a skills chunk when the skills list is nonempty,
and the first 500 characters of each of the first three experience
description strings. -/
def buildResumeChunks (resume_text : Str) (skills : List Str) (experience : List Str) :
    List Str :=
  [resume_text.take 1000] ++
  (if skills = [] then [] else
    [strToL "Skills: " ++ joinStr (skills.intersperse (strToL ", "))]) ++
  (experience.take 3).map (fun e => e.take 500)

/-- The averaging list comprehension of `create_resume_embeddings`:
coordinate `i` of the result is the sum over all chunk embeddings of their
`i`-th coordinate, divided by the number of embeddings; the coordinate
range is taken from the first embedding. -/
def avgEmbedding (embeddings : List (List ℚ)) : List ℚ :=
  match embeddings with
  | [] => []
  | e0 :: _ =>
    (List.range e0.length).map
      (fun i => (embeddings.map (fun e => e.getD i 0)).sum / (embeddings.length : ℚ))

/-- `EmbeddingService.create_resume_embeddings` with the batch-embedding
endpoint supplied as an oracle: average the chunk embeddings, or return the
empty vector when the batch result is empty. -/
def create_resume_embeddings (embedBatch : List Str → List (List ℚ))
    (resume_text : Str) (skills : List Str) (experience : List Str) : List ℚ :=
  let embeddings := embedBatch (buildResumeChunks resume_text skills experience)
  if embeddings = [] then [] else avgEmbedding embeddings

-- ### vector_store.py — VectorStoreService

/-- The metadata payload stored with a vector; the search route only reads
`resume_id` (`metadata.get("resume_id")`, which is `None` when absent). -/
structure VectorMeta where
  resume_id : Option Str
deriving DecidableEq

/-- One raw match returned by the Pinecone query. -/
structure RawMatch where
  vid : Str
  score : ℚ
  metadata : VectorMeta
deriving DecidableEq

/-- `VectorStoreService.add_vector`: the upsert call either succeeds or
raises; any raise is caught and reported as `false`. -/
def add_vector (upsertResult : Except Str Unit) : Bool :=
  match upsertResult with
  | .ok _ => true
  | .error _ => false

/-- `VectorStoreService.delete_vector`: same failure contract as
`add_vector`. -/
def delete_vector (deleteResult : Except Str Unit) : Bool :=
  match deleteResult with
  | .ok _ => true
  | .error _ => false

/-- `VectorStoreService.search_similar`: the query call either returns raw
matches or raises; a raise is caught and reported as the empty sequence,
and returned matches are filtered to `score >= min_similarity`. -/
def search_similar (queryResult : Except Str (List RawMatch)) (minSimilarity : ℚ) :
    List RawMatch :=
  match queryResult with
  | .error _ => []
  | .ok ms => ms.filter (fun m => minSimilarity ≤ m.score)

-- ### database.py — DatabaseService over the resumes collection

/-- The document store: records keyed by their id string. -/
abbrev Store : Type := List (Str × Resume)

def isHexChar (c : Char) : Bool :=
  c.isDigit || ('a' ≤ c && c ≤ 'f') || ('A' ≤ c && c ≤ 'F')

/-- `bson.ObjectId(s)` accepts exactly 24-character hex strings; anything
else raises (which every wrapper catches). -/
def isValidObjectId (id : Str) : Bool := id.length = 24 && id.all isHexChar

def findDoc : Store → Str → Option Resume
  | [], _ => none
  | (k, d) :: rest, id => if k = id then some d else findDoc rest id

def setDoc : Store → Str → Resume → Store
  | [], _, _ => []
  | (k, d) :: rest, id, v => if k = id then (k, v) :: rest else (k, d) :: setDoc rest id v

def removeDoc : Store → Str → Store
  | [], _ => []
  | (k, d) :: rest, id => if k = id then rest else (k, d) :: removeDoc rest id

/-- The `$set` update documents issued by this code base (each field is
either absent from the update or set to the given new value). -/
structure UpdateData where
  status : Option ResumeStatus := none
  content : Option (Option ResumeContent) := none
  metadata : Option (Option ResumeMetadata) := none
  vector_id : Option (Option Str) := none
  error_message : Option (Option Str) := none
deriving DecidableEq

/-- Apply a `$set` update to a document. -/
def applyUpdate (d : Resume) (u : UpdateData) : Resume :=
  { d with
    status := u.status.getD d.status
    content := u.content.getD d.content
    metadata := u.metadata.getD d.metadata
    vector_id := u.vector_id.getD d.vector_id
    error_message := u.error_message.getD d.error_message }

/-- `DatabaseService.get_resume`: a malformed id is answered with `None`
before any query; otherwise look the document up. -/
def get_resume (s : Store) (id : Str) : Option Resume :=
  if isValidObjectId id then findDoc s id else none

/-- `DatabaseService.update_resume`: a malformed id is answered with
`False`; otherwise `update_one({_id}, {$set: fields})` is issued and the
reported success is `modified_count > 0` — Mongo counts a document as
modified only when some field value actually changed, so an update whose
values all equal the stored ones (or an absent document) reports `False`. -/
def update_resume (s : Store) (id : Str) (u : UpdateData) : Store × Bool :=
  if isValidObjectId id then
    match findDoc s id with
    | some d =>
      if applyUpdate d u = d then (s, false)
      else (setDoc s id (applyUpdate d u), true)
    | none => (s, false)
  else (s, false)

/-- `DatabaseService.delete_resume`: malformed id → `False`; otherwise
`deleted_count > 0`. -/
def delete_resume (s : Store) (id : Str) : Store × Bool :=
  if isValidObjectId id then
    match findDoc s id with
    | some _ => (removeDoc s id, true)
    | none => (s, false)
  else (s, false)

-- ### tasks/processing.py — process_resume_task

/-- All external outcomes of one ingestion run.  `extract` is the
`extract_text` outcome (error = the raised message), `llm = none` means the
LLM structured-extraction call raised, `embed` is the batch-embedding
outcome, `vectorOk` is the boolean returned by `add_vector` (which never
raises), and the two `DbRaise` flags say whether the corresponding
`update_resume` round-trip raised in transport (a raise leaves the store
unchanged). -/
structure PipelineEnv where
  extract : Except Str (Str × Nat)
  llm : Option StructuredData
  procTime : Option ℚ
  extractedAt : Option Nat
  embed : Except Str (List ℚ)
  vectorOk : Bool
  primaryDbRaise : Bool
  failedDbRaise : Bool

/-- The `$set` document of the success-path update (step 5). -/
def processedUpdate (c : ResumeContent) (md : ResumeMetadata) (vid : Str) : UpdateData :=
  { status := some .processed
    content := some (some c)
    metadata := some (some md)
    vector_id := some (some vid) }

/-- The `$set` document of `update_resume_status(..., FAILED,
error_message=...)`. -/
def failedUpdate (msg : Str) : UpdateData :=
  { status := some .failed, error_message := some (some msg) }

/-- The `except` handler of `process_resume_task`: a best-effort write of
`status = FAILED` with the exception text; if that write itself raises the
failure is only logged and the store is left unchanged (its boolean result
is ignored either way). -/
def failPath (env : PipelineEnv) (rid msg : Str) (s : Store) : Store :=
  if env.failedDbRaise then s else (update_resume s rid (failedUpdate msg)).1

/-- `process_resume_task`, as a function from the oracle outcomes and the
initial store to the final store.  Stage order follows the source: parse →
embed → vector upsert → primary update; any raise jumps to `failPath`.  A
primary update that reports `False` raises
`"Failed to update resume in database"`, a failed upsert raises
`"Failed to store vector in database"`.  Temp-file cleanup touches no
modelled state. -/
def process_resume_task (env : PipelineEnv) (fileSize : Nat) (rid : Str) (s : Store) :
    Store :=
  match parse_resume env.extract env.llm env.procTime env.extractedAt fileSize with
  | .error e => failPath env rid e s
  | .ok (content, md) =>
    match env.embed with
    | .error e => failPath env rid e s
    | .ok _ =>
      if env.vectorOk then
        if env.primaryDbRaise then failPath env rid (strToL "db raise") s
        else
          let res := update_resume s rid (processedUpdate content md (strToL "resume_" ++ rid))
          if res.2 then res.1
          else failPath env rid (strToL "Failed to update resume in database") res.1
      else failPath env rid (strToL "Failed to store vector in database") s

-- ### api/routes/search.py — search_resumes

/-- The match record returned by the search route (`ResumeMatch` of
`models/search.py`). -/
structure ResumeMatch where
  id : Str
  filename : Str
  similarity_score : ℚ
  skills : List Str
  experience_years : Option Nat
  summary : Option Str
  upload_date : Nat
deriving DecidableEq

/-- Assemble one `ResumeMatch` from a kept vector match and its resolved
document, exactly as the route does (`experience_years` is the count of
experience entries, `0` when content is absent). -/
def mkResumeMatch (rid : Str) (score : ℚ) (r : Resume) : ResumeMatch :=
  { id := rid
    filename := r.filename
    similarity_score := score
    skills := match r.content with | some c => c.skills | none => []
    experience_years := some (match r.content with | some c => c.experience.length | none => 0)
    summary := match r.content with | some c => c.summary | none => none
    upload_date := r.upload_date }

/-- The join loop of the search route: for each vector match resolve
`resume_id` from the metadata (skipping falsy values — absent key or empty
string), fetch the document, and keep the match only when the document
exists and its status is Processed. -/
def joinMatches (s : Store) : List RawMatch → List ResumeMatch
  | [] => []
  | vm :: rest =>
    let tail := joinMatches s rest
    match vm.metadata.resume_id with
    | none => tail
    | some rid =>
      if rid = [] then tail
      else
        match get_resume s rid with
        | some r => if r.status = .processed then mkResumeMatch rid vm.score r :: tail else tail
        | none => tail

/-- Stable insertion into a descending-sorted list: walk past strictly
greater scores, insert before the first element whose score is ≤; processed
front-to-back this reproduces the unique stable descending sort that
`list.sort(key=..., reverse=True)` computes. -/
def insertDesc (m : ResumeMatch) : List ResumeMatch → List ResumeMatch
  | [] => [m]
  | x :: xs =>
    if m.similarity_score < x.similarity_score then x :: insertDesc m xs
    else m :: x :: xs

/-- The stable descending sort by `similarity_score`
(`resume_matches.sort(key=lambda x: x.similarity_score, reverse=True)`). -/
def sortDesc : List ResumeMatch → List ResumeMatch
  | [] => []
  | x :: xs => insertDesc x (sortDesc xs)

/-- The search route: query-embedding and the Pinecone round-trip are
oracle inputs (`queryResult`); the route filters through `search_similar`,
joins against the document store, and sorts descending by score. -/
def search_resumes (s : Store) (queryResult : Except Str (List RawMatch))
    (minSimilarity : ℚ) : List ResumeMatch :=
  sortDesc (joinMatches s (search_similar queryResult minSimilarity))

-- ### Store helper lemmas

theorem findDoc_setDoc {s : Store} {k : Str} {d : Resume} (v : Resume)
    (h : findDoc s k = some d) : findDoc (setDoc s k v) k = some v := by
  induction s with
  | nil => simp [findDoc] at h
  | cons kv rest ih =>
    obtain ⟨k0, d0⟩ := kv
    by_cases hk : k0 = k
    · simp [findDoc, setDoc, hk]
    · rw [findDoc, if_neg hk] at h
      simp [findDoc, setDoc, hk, ih h]

theorem applyUpdate_status_ne {d : Resume} {u : UpdateData} {st : ResumeStatus}
    (hu : u.status = some st) (hd : d.status ≠ st) : applyUpdate d u ≠ d := by
  intro h
  apply hd
  have hcong := congrArg Resume.status h
  simp [applyUpdate, hu] at hcong
  exact hcong.symm

theorem update_resume_modifies {s : Store} {id : Str} {d : Resume} {u : UpdateData}
    (hv : isValidObjectId id = true) (hf : findDoc s id = some d)
    (hne : applyUpdate d u ≠ d) :
    update_resume s id u = (setDoc s id (applyUpdate d u), true) := by
  simp [update_resume, hv, hf, hne]

/-- When the best-effort Failed write goes through on a document that is
not already Failed, the final record is the old one with `status := failed`
and the error message set. -/
theorem failPath_writes {env : PipelineEnv} {rid msg : Str} {s : Store} {d : Resume}
    (hraise : env.failedDbRaise = false) (hv : isValidObjectId rid = true)
    (hf : findDoc s rid = some d) (hst : d.status ≠ .failed) :
    findDoc (failPath env rid msg s) rid =
      some { d with status := .failed, error_message := some msg } := by
  have hne : applyUpdate d (failedUpdate msg) ≠ d :=
    applyUpdate_status_ne (by simp [failedUpdate]) hst
  rw [failPath, if_neg (by simp [hraise]),
    update_resume_modifies hv hf hne]
  have := findDoc_setDoc (applyUpdate d (failedUpdate msg)) hf
  rw [this]
  simp [applyUpdate, failedUpdate]

theorem failPath_raises {env : PipelineEnv} {rid msg : Str} {s : Store}
    (hraise : env.failedDbRaise = true) : failPath env rid msg s = s := by
  simp [failPath, hraise]

-- ### Claims

/-- Claim C4, as stated, is false on the code: in the long-paragraph branch
the sentence delimiters `.` `!` `?` are removed by `re.split(r'[.!?]+')`
and every emitted sentence gets a fresh `". "` appended, so non-whitespace
characters are not preserved.  Concretely, chunking `"a!b"` with threshold
1 yields `["a.", "b."]`: the non-whitespace characters of the output are
`a.b.` but those of the input are `a!b`. -/
theorem c4_counterexample :
    (joinStr (create_chunks 1 (strToL "a!b"))).filter (fun c => !isPyWs c) ≠
      (strToL "a!b").filter (fun c => !isPyWs c) := by decide

/-- Claim C4 (amended): for every input text and positive chunk-size
threshold, chunking never produces an empty or whitespace-only chunk, and
concatenating the produced chunks preserves, in their original order, all
characters of the input other than whitespace and the sentence delimiters
`.` `!` `?` (delimiter runs inside re-split paragraphs are replaced by a
period and a space). -/
theorem c4_chunking_spec (chunkSize : Nat) (text : Str) (hpos : 0 < chunkSize) :
    (∀ chunk ∈ create_chunks chunkSize text,
      chunk ≠ [] ∧ ∃ c ∈ chunk, isPyWs c = false) ∧
    (joinStr (create_chunks chunkSize text)).filter keepChar = text.filter keepChar :=
  ⟨create_chunks_mem chunkSize text, create_chunks_filter chunkSize text⟩

theorem c4_witness :
    (joinStr (create_chunks 5 (strToL "hi there. bye"))).filter keepChar =
      (strToL "hi there. bye").filter keepChar :=
  (c4_chunking_spec 5 (strToL "hi there. bye") (by decide)).2

theorem map_getD_range (v : List ℚ) :
    (List.range v.length).map (fun i => v.getD i 0) = v := by
  apply List.ext_getElem
  · simp
  · intro i h1 h2
    simp [List.getD_eq_getElem?_getD, List.getElem?_eq_getElem h2]

/-- Claim C5 (confirmed): for every nonempty list of chunk embeddings of a
common dimension `d`, the averaged document vector has dimension `d` and
its `i`-th coordinate is the arithmetic mean of the `i`-th coordinates;
and averaging `n > 0` identical copies of a vector returns that vector.
(Coordinates are modelled as rationals; the Python code computes with
floats.) -/
theorem c5_average_spec (embeddings : List (List ℚ)) (d : Nat)
    (hne : embeddings ≠ []) (hd : ∀ e ∈ embeddings, e.length = d) :
    (avgEmbedding embeddings).length = d ∧
    (∀ i, i < d → (avgEmbedding embeddings).getD i 0 =
      (embeddings.map (fun e => e.getD i 0)).sum / (embeddings.length : ℚ)) ∧
    (∀ (n : Nat) (v : List ℚ), 0 < n → avgEmbedding (List.replicate n v) = v) := by
  refine ⟨?_, ?_, ?_⟩
  · match embeddings, hne with
    | e0 :: rest, _ =>
      simp [avgEmbedding, hd e0 (by simp)]
  · intro i hi
    match embeddings, hne with
    | e0 :: rest, _ =>
      have h0 : e0.length = d := hd e0 (by simp)
      simp only [avgEmbedding, h0]
      rw [List.getD_eq_getElem?_getD, List.getElem?_map, List.getElem?_range hi]
      rfl
  · intro n v hn
    match n, hn with
    | m + 1, _ =>
      simp only [avgEmbedding, List.replicate, List.map_replicate]
      have : ∀ i : Nat,
          ((List.replicate (m + 1) v).map (fun e => e.getD i 0)).sum /
            ((List.replicate (m + 1) v).length : ℚ) = v.getD i 0 := by
        intro i
        rw [List.map_replicate, List.sum_replicate, List.length_replicate,
          nsmul_eq_mul, mul_div_assoc, mul_comm]
        exact div_mul_cancel₀ _ (Nat.cast_ne_zero.mpr (by omega))
      calc (List.range v.length).map
            (fun i => ((List.replicate (m + 1) v).map (fun e => e.getD i 0)).sum /
              ((List.replicate (m + 1) v).length : ℚ))
          = (List.range v.length).map (fun i => v.getD i 0) := by
            apply List.map_congr_left
            intro i _
            exact this i
        _ = v := map_getD_range v

theorem c5_witness :
    (avgEmbedding [[1, 3], [3, 5]]).length = 2 ∧
    avgEmbedding (List.replicate 2 [(7 : ℚ)]) = [7] := by
  have h := c5_average_spec [[1, 3], [3, 5]] 2 (by decide)
    (by intro e he; simp at he; rcases he with h | h <;> simp [h])
  exact ⟨h.1, h.2.2 2 [7] (by decide)⟩

/-- Claim C6, as stated, is false on the code: when the pdfplumber pass
yields fewer than 100 characters, `extract_text` appends the PyPDF2 page
texts to the same `text` variable, which is never reset, so the first
pass's text is kept, not discarded.  Concretely, with a first pass
yielding `"AAA"` and a second pass yielding 100 `'B'`s, the returned text
is not the second pass's output alone (it still starts with `"AAA"`). -/
theorem c6_counterexample :
    (pyStrip (collectPages [some (strToL "AAA")])).length < 100 ∧
    (extract_text [some (strToL "AAA")] [some (List.replicate 100 'B')]).1 ≠
      pyStrip (collectPages [some (List.replicate 100 'B')]) := by decide

/-- Claim C6 (amended): for every PDF whose layout-aware pass yields
stripped text shorter than 100 characters, `extract_text` re-runs
extraction with the second, simpler method and returns the first pass's
text with the second method's page texts appended (the first pass's text is
kept, not discarded), stripped, with the page count taken from the second
reader. -/
theorem c6_short_first_pass (plumberPages pypdfPages : List (Option Str))
    (h : (pyStrip (collectPages plumberPages)).length < 100) :
    extract_text plumberPages pypdfPages =
      (pyStrip (collectPages plumberPages ++ collectPages pypdfPages),
        pypdfPages.length) := by
  rw [extract_text, if_pos h]

theorem c6_witness :
    extract_text [some (strToL "AAA")] [some (List.replicate 100 'B')] =
      (pyStrip (collectPages [some (strToL "AAA")] ++
        collectPages [some (List.replicate 100 'B')]), 1) :=
  c6_short_first_pass [some (strToL "AAA")] [some (List.replicate 100 'B')] (by decide)

/-- Claim C7, as stated, is false on the code for the empty input text:
the fallback summary is then the fixed placeholder `"Resume content
extracted"`, which is not a prefix of the (empty) text — the only prefix of
the empty text is the empty string, and the summary is nonempty. -/
theorem c7_counterexample :
    (fallback_extraction []).summary = strToL "Resume content extracted" ∧
    (fallback_extraction []).summary ≠ ([] : Str).take 200 := by decide

/-- Claim C7 (amended): for every input text, the deterministic fallback
extraction never raises (it is a total function) and always returns a
complete record in which experience and education are empty sequences, the
contact email is the first email-like substring of the text whenever one
exists (and the empty string otherwise), and the summary is the
200-character prefix of the text when the text is nonempty (for empty text
it is the fixed placeholder `"Resume content extracted"`). -/
theorem c7_fallback_spec (text : Str) :
    (fallback_extraction text).experience = [] ∧
    (fallback_extraction text).education = [] ∧
    (∀ e, reSearchEmail text = some e →
      (fallback_extraction text).contact_info.email = some e) ∧
    (reSearchEmail text = none →
      (fallback_extraction text).contact_info.email = some []) ∧
    (text ≠ [] → (fallback_extraction text).summary = text.take 200) ∧
    (text = [] →
      (fallback_extraction text).summary = strToL "Resume content extracted") := by
  refine ⟨rfl, rfl, ?_, ?_, ?_, ?_⟩
  · intro e he; simp [fallback_extraction, he]
  · intro he; simp [fallback_extraction, he]
  · intro ht; simp [fallback_extraction, ht]
  · intro ht; simp [fallback_extraction, ht]

/-- The spec's scenario: the LLM call raises and the text contains
`jane@x.com`; the fallback record's contact email is exactly that address,
and experience and education are empty. -/
theorem c7_witness :
    (fallback_extraction (strToL "Hi jane@x.com here")).contact_info.email =
      some (strToL "jane@x.com") ∧
    (fallback_extraction (strToL "Hi jane@x.com here")).experience = [] := by
  have h := c7_fallback_spec (strToL "Hi jane@x.com here")
  exact ⟨h.2.2.1 (strToL "jane@x.com") (by decide), h.1⟩

/-- The fallback record always passes `ResumeContent` validation (all its
contact values are strings), so a parse in which only the LLM call failed
succeeds. -/
theorem parse_resume_llm_none_ok (text : Str) (pages : Nat) (pt : Option ℚ)
    (ea : Option Nat) (fs : Nat) :
    parse_resume (.ok (text, pages)) none pt ea fs =
      .ok ({ text := text
             skills := (fallback_extraction text).skills
             experience := []
             education := []
             contact_info :=
               { email := (reSearchEmail text).getD []
                 phone := (rePhoneSearch text).getD []
                 linkedin := (reLinkedinSearch text).getD [] }
             summary := some ((fallback_extraction text).summary) },
           { file_size := fs, pages := pages
             processing_time := pt, extracted_at := ea }) := by
  simp [parse_resume, extract_structured_data_with_openai, fallback_extraction,
    validateContact]

/-- Claim C3 (confirmed): if the primary LLM structured-extraction call
raises (`llm = none`), the extraction stage returns the deterministic
fallback record instead of propagating the error — `parse_resume` succeeds
with the fallback-derived content — and a pipeline run in which only the
LLM call failed still ends with the document Processed (given the later
stages succeed), so stage 2 cannot itself fail the pipeline. -/
theorem c3_llm_error_recovered (text : Str) (pages : Nat) (procTime : Option ℚ)
    (extractedAt : Option Nat) (fileSize : Nat) :
    (∃ c md, parse_resume (.ok (text, pages)) none procTime extractedAt fileSize =
        .ok (c, md) ∧
      c.skills = (fallback_extraction text).skills ∧
      c.experience = [] ∧ c.education = [] ∧
      c.summary = some ((fallback_extraction text).summary)) ∧
    (∀ (env : PipelineEnv) (fs : Nat) (rid : Str) (s : Store) (d0 : Resume)
        (emb : List ℚ),
      env.extract = .ok (text, pages) → env.llm = none → env.embed = .ok emb →
      env.vectorOk = true → env.primaryDbRaise = false →
      isValidObjectId rid = true → findDoc s rid = some d0 →
      d0.status = .processing →
      ∃ d1, findDoc (process_resume_task env fs rid s) rid = some d1 ∧
        d1.status = .processed) := by
  constructor
  · exact ⟨_, _, parse_resume_llm_none_ok text pages procTime extractedAt fileSize,
      rfl, rfl, rfl, rfl⟩
  · intro env fs rid s d0 emb hex hllm hemb hvec hpr hv hf hst
    rw [process_resume_task, hex, hllm, parse_resume_llm_none_ok, hemb]
    simp only [hvec, if_true, hpr, if_false]
    have hne : applyUpdate d0 (processedUpdate
        { text := text
          skills := (fallback_extraction text).skills
          experience := []
          education := []
          contact_info :=
            { email := (reSearchEmail text).getD []
              phone := (rePhoneSearch text).getD []
              linkedin := (reLinkedinSearch text).getD [] }
          summary := some ((fallback_extraction text).summary) }
        { file_size := fs, pages := pages
          processing_time := env.procTime, extracted_at := env.extractedAt }
        (strToL "resume_" ++ rid)) ≠ d0 :=
      applyUpdate_status_ne (by simp [processedUpdate])
        (show d0.status ≠ .processed by simp [hst])
    rw [update_resume_modifies hv hf hne]
    simp only [if_true]
    refine ⟨applyUpdate d0 _, findDoc_setDoc _ hf, ?_⟩
    simp [applyUpdate, processedUpdate]

theorem c3_witness : ∃ c md,
    parse_resume (.ok (strToL "Hi jane@x.com here", 2)) none none none 345 =
      .ok (c, md) ∧
    c.skills = (fallback_extraction (strToL "Hi jane@x.com here")).skills ∧
    c.experience = [] ∧ c.education = [] ∧
    c.summary = some ((fallback_extraction (strToL "Hi jane@x.com here")).summary) :=
  (c3_llm_error_recovered (strToL "Hi jane@x.com here") 2 none none 345).1

/-- Claim C8 (confirmed): every underlying failure of the vector index
client is caught — an upsert or delete failure is reported exactly as the
boolean `false` (and success exactly as `true`), and a query failure is
reported as the empty result sequence; since the wrappers return plain
values, no exception reaches the caller, so these are the only failure
signals this layer emits. -/
theorem c8_vector_client_failures :
    (∀ o : Except Str Unit, (add_vector o = false ↔ ∃ e, o = .error e) ∧
      (delete_vector o = false ↔ ∃ e, o = .error e)) ∧
    (∀ (e : Str) (minSim : ℚ), search_similar (.error e) minSim = []) := by
  constructor
  · intro o
    cases o with
    | ok u => cases u; simp [add_vector, delete_vector]
    | error e => simp [add_vector, delete_vector]
  · intro e minSim
    rfl

/-- Claim C9 (confirmed): a string that is not a well-formed `ObjectId`
(and equally a well-formed id matching no stored document) makes
`get_resume` return `None` and makes `update_resume` and `delete_resume`
report failure with the store unchanged — no error is raised in either
case, and the two cases are indistinguishable to the caller. -/
theorem c9_invalid_id_not_found (s : Store) (id : Str) (u : UpdateData)
    (h : isValidObjectId id = false ∨ findDoc s id = none) :
    get_resume s id = none ∧ update_resume s id u = (s, false) ∧
    delete_resume s id = (s, false) := by
  rcases h with h | h
  · simp [get_resume, update_resume, delete_resume, h]
  · by_cases hv : isValidObjectId id
    · simp [get_resume, update_resume, delete_resume, hv, h]
    · simp [get_resume, update_resume, delete_resume, hv]

theorem c9_witness :
    get_resume [] (strToL "not-an-objectid") = none ∧
    update_resume [] (strToL "not-an-objectid") (failedUpdate []) = ([], false) ∧
    delete_resume [] (strToL "not-an-objectid") = ([], false) :=
  c9_invalid_id_not_found [] (strToL "not-an-objectid") (failedUpdate [])
    (Or.inl (by decide))

-- ### Lemmas about the search route's stable descending sort

theorem mem_insertDesc {a m : ResumeMatch} :
    ∀ {l : List ResumeMatch}, a ∈ insertDesc m l ↔ a = m ∨ a ∈ l := by
  intro l
  induction l with
  | nil => simp [insertDesc]
  | cons x xs ih =>
    rw [insertDesc]
    by_cases h : m.similarity_score < x.similarity_score
    · rw [if_pos h]
      simp only [List.mem_cons, ih]
      tauto
    · rw [if_neg h]
      simp only [List.mem_cons]

/-- Sortedness: every element is followed only by elements with a score
not above its own. -/
def SortedDesc (l : List ResumeMatch) : Prop :=
  l.Pairwise (fun a b => b.similarity_score ≤ a.similarity_score)

theorem sortedDesc_insertDesc {m : ResumeMatch} :
    ∀ {l : List ResumeMatch}, SortedDesc l → SortedDesc (insertDesc m l) := by
  intro l
  induction l with
  | nil => intro _; simp [insertDesc, SortedDesc]
  | cons x xs ih =>
    intro hs
    rw [SortedDesc, List.pairwise_cons] at hs
    obtain ⟨hx, hxs⟩ := hs
    rw [insertDesc]
    by_cases h : m.similarity_score < x.similarity_score
    · rw [if_pos h]
      rw [SortedDesc, List.pairwise_cons]
      refine ⟨?_, ih hxs⟩
      intro b hb
      rcases mem_insertDesc.mp hb with rfl | hbxs
      · exact le_of_lt h
      · exact hx b hbxs
    · rw [if_neg h]
      rw [SortedDesc, List.pairwise_cons]
      refine ⟨?_, List.pairwise_cons.mpr ⟨hx, hxs⟩⟩
      intro b hb
      rcases List.mem_cons.mp hb with rfl | hbxs
      · exact le_of_not_lt h
      · exact le_trans (hx b hbxs) (le_of_not_lt h)

theorem mem_sortDesc {a : ResumeMatch} :
    ∀ {l : List ResumeMatch}, a ∈ sortDesc l ↔ a ∈ l := by
  intro l
  induction l with
  | nil => simp [sortDesc]
  | cons x xs ih => rw [sortDesc, mem_insertDesc]; simp [ih]

theorem sortedDesc_sortDesc : ∀ (l : List ResumeMatch), SortedDesc (sortDesc l) := by
  intro l
  induction l with
  | nil => simp [sortDesc, SortedDesc]
  | cons x xs ih => exact sortedDesc_insertDesc ih

/-- Stability, via score-level filters: inserting `m` commutes with
filtering on any fixed score value (the elements `insertDesc` walks past
have a score strictly above `m`'s, so they never share its score). -/
theorem filter_insertDesc (sc : ℚ) (m : ResumeMatch) :
    ∀ (l : List ResumeMatch),
      (insertDesc m l).filter (fun a => decide (a.similarity_score = sc)) =
        (if m.similarity_score = sc then [m] else []) ++
          l.filter (fun a => decide (a.similarity_score = sc)) := by
  intro l
  induction l with
  | nil =>
    by_cases hm : m.similarity_score = sc <;>
      simp [insertDesc, List.filter, hm]
  | cons x xs ih =>
    rw [insertDesc]
    by_cases h : m.similarity_score < x.similarity_score
    · rw [if_pos h]
      by_cases hx : x.similarity_score = sc
      · have hm : ¬ m.similarity_score = sc := by
          intro hm
          rw [hm, hx] at h
          exact lt_irrefl sc h
        simp [List.filter_cons, hx, hm, ih]
      · simp [List.filter_cons, hx, ih]
    · rw [if_neg h]
      by_cases hm : m.similarity_score = sc <;>
        by_cases hx : x.similarity_score = sc <;>
          simp [List.filter_cons, hm, hx]

theorem filter_sortDesc (sc : ℚ) :
    ∀ (l : List ResumeMatch),
      (sortDesc l).filter (fun a => decide (a.similarity_score = sc)) =
        l.filter (fun a => decide (a.similarity_score = sc)) := by
  intro l
  induction l with
  | nil => rfl
  | cons x xs ih =>
    rw [sortDesc, filter_insertDesc]
    by_cases hx : x.similarity_score = sc <;> simp [List.filter_cons, hx, ih]

/-- Every joined match carries the score of some kept vector match and is
backed by a stored, Processed document under its own id. -/
theorem joinMatches_mem {s : Store} :
    ∀ {ms : List RawMatch} {m : ResumeMatch}, m ∈ joinMatches s ms →
      (∃ vm ∈ ms, m.similarity_score = vm.score) ∧
      (∃ r, get_resume s m.id = some r ∧ r.status = .processed) := by
  intro ms
  induction ms with
  | nil => intro m h; simp [joinMatches] at h
  | cons vm rest ih =>
    intro m h
    rw [joinMatches] at h
    rcases hrid : vm.metadata.resume_id with _ | rid
    · simp only [hrid] at h
      obtain ⟨⟨vm1, hvm1, hsc⟩, hr⟩ := ih h
      exact ⟨⟨vm1, by simp [hvm1], hsc⟩, hr⟩
    · simp only [hrid] at h
      by_cases hempty : rid = []
      · rw [if_pos hempty] at h
        obtain ⟨⟨vm1, hvm1, hsc⟩, hr⟩ := ih h
        exact ⟨⟨vm1, by simp [hvm1], hsc⟩, hr⟩
      · rw [if_neg hempty] at h
        rcases hget : get_resume s rid with _ | r
        · simp only [hget] at h
          obtain ⟨⟨vm1, hvm1, hsc⟩, hr⟩ := ih h
          exact ⟨⟨vm1, by simp [hvm1], hsc⟩, hr⟩
        · simp only [hget] at h
          by_cases hproc : r.status = .processed
          · rw [if_pos hproc] at h
            rcases List.mem_cons.mp h with rfl | htail
            · exact ⟨⟨vm, by simp, rfl⟩, ⟨r, by simp [mkResumeMatch, hget], hproc⟩⟩
            · obtain ⟨⟨vm1, hvm1, hsc⟩, hr⟩ := ih htail
              exact ⟨⟨vm1, by simp [hvm1], hsc⟩, hr⟩
          · rw [if_neg hproc] at h
            obtain ⟨⟨vm1, hvm1, hsc⟩, hr⟩ := ih h
            exact ⟨⟨vm1, by simp [hvm1], hsc⟩, hr⟩

theorem search_similar_score {queryResult : Except Str (List RawMatch)}
    {minSimilarity : ℚ} {vm : RawMatch}
    (h : vm ∈ search_similar queryResult minSimilarity) :
    minSimilarity ≤ vm.score := by
  cases queryResult with
  | error e => simp [search_similar] at h
  | ok ms =>
    rw [search_similar] at h
    have := List.mem_filter.mp h
    simpa using this.2

/-- Claim C1 (confirmed): every match returned by the similarity search has
a backing document stored under its id with status Processed, its
similarity score is at least the request's `min_similarity`, and the
returned sequence is sorted non-increasingly by score with ties keeping the
vector-index return order (the filter over each fixed score value of the
sorted output equals that of the pre-sort joined list, which is in
vector-index order — the characterisation of a stable sort). -/
theorem c1_search_spec (s : Store) (queryResult : Except Str (List RawMatch))
    (minSimilarity : ℚ) :
    (∀ m ∈ search_resumes s queryResult minSimilarity,
      minSimilarity ≤ m.similarity_score ∧
      ∃ r, get_resume s m.id = some r ∧ r.status = .processed) ∧
    SortedDesc (search_resumes s queryResult minSimilarity) ∧
    (∀ sc : ℚ,
      (search_resumes s queryResult minSimilarity).filter
          (fun a => decide (a.similarity_score = sc)) =
        (joinMatches s (search_similar queryResult minSimilarity)).filter
          (fun a => decide (a.similarity_score = sc))) := by
  refine ⟨?_, sortedDesc_sortDesc _, fun sc => filter_sortDesc sc _⟩
  intro m hm
  rw [search_resumes, mem_sortDesc] at hm
  obtain ⟨⟨vm, hvm, hsc⟩, hr⟩ := joinMatches_mem hm
  refine ⟨?_, hr⟩
  rw [hsc]
  exact search_similar_score hvm

def c1Doc : Resume :=
  { filename := strToL "r.pdf", upload_date := 5, status := .processed
    content := none, metadata := none
    vector_id := some (strToL "resume_507f1f77bcf86cd799439011")
    error_message := none }

def c1Store : Store := [(strToL "507f1f77bcf86cd799439011", c1Doc)]

def c1Raw : RawMatch :=
  { vid := strToL "resume_507f1f77bcf86cd799439011", score := 2
    metadata := { resume_id := some (strToL "507f1f77bcf86cd799439011") } }

theorem c1_witness :
    (1 : ℚ) ≤ (mkResumeMatch (strToL "507f1f77bcf86cd799439011") 2 c1Doc).similarity_score ∧
    ∃ r, get_resume c1Store
        (mkResumeMatch (strToL "507f1f77bcf86cd799439011") 2 c1Doc).id = some r ∧
      r.status = .processed :=
  (c1_search_spec c1Store (.ok [c1Raw]) 1).1
    (mkResumeMatch (strToL "507f1f77bcf86cd799439011") 2 c1Doc) (by decide)

/-- The failure handler leaves content, metadata and vectorId untouched;
the status becomes Failed when the best-effort write goes through, and is
otherwise unchanged. -/
theorem failPath_final (env : PipelineEnv) (rid msg : Str) (s : Store) (d0 : Resume)
    (hv : isValidObjectId rid = true) (hf : findDoc s rid = some d0)
    (hnf : d0.status ≠ .failed) :
    ∃ d1, findDoc (failPath env rid msg s) rid = some d1 ∧
      d1.content = d0.content ∧ d1.metadata = d0.metadata ∧
      d1.vector_id = d0.vector_id ∧
      (d1.status = d0.status ∨ d1.status = .failed) ∧
      (env.failedDbRaise = false → d1.status = .failed) := by
  by_cases hr : env.failedDbRaise
  · exact ⟨d0, by rw [failPath_raises hr]; exact hf, rfl, rfl, rfl, Or.inl rfl,
      by simp [hr]⟩
  · refine ⟨_, failPath_writes (by simpa using hr) hv hf hnf, ?_⟩
    simp

/-- Claim C2 (amended): from an initial document in status Processing with
null content, metadata and vectorId, at both reachable store states
(initial and final) the document satisfies: content and metadata are
non-null iff status = Processed, and vectorId is non-null iff status =
Processed and the vector upsert succeeded.  If the vector upsert reports
failure, no vectorId is ever persisted, and the document ends Failed
provided the best-effort Failed write-back goes through (if that write-back
itself fails, the document remains in Processing — see the
counterexample for the claim as originally stated). -/
theorem c2_state_machine (env : PipelineEnv) (fs : Nat) (rid : Str) (s : Store)
    (d0 : Resume)
    (hv : isValidObjectId rid = true) (hf : findDoc s rid = some d0)
    (hst : d0.status = .processing) (hc : d0.content = none)
    (hm : d0.metadata = none) (hvid : d0.vector_id = none) :
    (((d0.content ≠ none ∧ d0.metadata ≠ none) ↔ d0.status = .processed) ∧
      (d0.vector_id ≠ none ↔ (d0.status = .processed ∧ env.vectorOk = true))) ∧
    (∃ d1, findDoc (process_resume_task env fs rid s) rid = some d1 ∧
      ((d1.content ≠ none ∧ d1.metadata ≠ none) ↔ d1.status = .processed) ∧
      (d1.vector_id ≠ none ↔ (d1.status = .processed ∧ env.vectorOk = true)) ∧
      (env.vectorOk = false →
        d1.vector_id = none ∧
        (env.failedDbRaise = false → d1.status = .failed))) := by
  have hnf : d0.status ≠ .failed := by simp [hst]
  constructor
  · constructor
    · simp [hc, hst]
    · simp [hvid, hst]
  · have hfailcase : ∀ msg, ∃ d1, findDoc (failPath env rid msg s) rid = some d1 ∧
        ((d1.content ≠ none ∧ d1.metadata ≠ none) ↔ d1.status = .processed) ∧
        (d1.vector_id ≠ none ↔ (d1.status = .processed ∧ env.vectorOk = true)) ∧
        (env.vectorOk = false →
          d1.vector_id = none ∧
          (env.failedDbRaise = false → d1.status = .failed)) := by
      intro msg
      obtain ⟨d1, hd1, hcc, hmm, hvv, hso, hsf⟩ :=
        failPath_final env rid msg s d0 hv hf hnf
      have hd1np : d1.status ≠ .processed := by
        rcases hso with h | h <;> simp [h, hst]
      refine ⟨d1, hd1, ?_, ?_, ?_⟩
      · simp [hcc, hc, hd1np]
      · simp [hvv, hvid, hd1np]
      · intro _
        exact ⟨by simp [hvv, hvid], hsf⟩
    rw [process_resume_task]
    cases hp : parse_resume env.extract env.llm env.procTime env.extractedAt fs with
    | error e => exact hfailcase e
    | ok cm =>
      obtain ⟨c, md⟩ := cm
      cases he : env.embed with
      | error e => exact hfailcase e
      | ok emb =>
        dsimp only
        by_cases hvec : env.vectorOk
        · rw [if_pos hvec]
          by_cases hpr : env.primaryDbRaise
          · rw [if_pos hpr]
            exact hfailcase _
          · rw [if_neg hpr]
            have hne : applyUpdate d0 (processedUpdate c md (strToL "resume_" ++ rid)) ≠ d0 :=
              applyUpdate_status_ne (by simp [processedUpdate])
                (show d0.status ≠ .processed by simp [hst])
            rw [update_resume_modifies hv hf hne]
            simp only [if_true]
            refine ⟨applyUpdate d0 (processedUpdate c md (strToL "resume_" ++ rid)),
              findDoc_setDoc _ hf, ?_, ?_, ?_⟩
            · simp [applyUpdate, processedUpdate]
            · simp [applyUpdate, processedUpdate, hvec]
            · intro hcontra; rw [hvec] at hcontra; cases hcontra
        · rw [if_neg hvec]
          exact hfailcase _

def c2Rid : Str := strToL "507f1f77bcf86cd799439012"

def c2Init : Resume :=
  { filename := strToL "r.pdf", upload_date := 5, status := .processing
    content := none, metadata := none, vector_id := none, error_message := none }

def c2Store : Store := [(c2Rid, c2Init)]

/-- A run in which the vector upsert reports failure and the best-effort
Failed write-back also fails (raises). -/
def c2Env : PipelineEnv :=
  { extract := .ok (strToL "abc", 1), llm := none, procTime := none
    extractedAt := none, embed := .ok [], vectorOk := false
    primaryDbRaise := false, failedDbRaise := true }

/-- Claim C2, as stated, is false on the code: when the vector upsert
reports failure the handler's Failed write is only best-effort — in a run
where that secondary write raises, the document does not end Failed but
stays in Processing (with no vectorId, extraction and embedding having
succeeded). -/
theorem c2_counterexample :
    c2Env.vectorOk = false ∧
    findDoc (process_resume_task c2Env 3 c2Rid c2Store) c2Rid = some c2Init ∧
    c2Init.status = .processing ∧ c2Init.vector_id = none := by decide

theorem c2_witness :
    ∃ d1, findDoc (process_resume_task c2Env 3 c2Rid c2Store) c2Rid = some d1 ∧
      ((d1.content ≠ none ∧ d1.metadata ≠ none) ↔ d1.status = .processed) ∧
      (d1.vector_id ≠ none ↔ (d1.status = .processed ∧ c2Env.vectorOk = true)) ∧
      (c2Env.vectorOk = false →
        d1.vector_id = none ∧
        (c2Env.failedDbRaise = false → d1.status = .failed)) :=
  (c2_state_machine c2Env 3 c2Rid c2Store c2Init (by decide) (by decide)
    (by decide) (by decide) (by decide) (by decide)).2

/-- Claim C10 (amended): for an existing, well-formed document id, the
store's update reports success exactly when the `$set` actually changed
some stored field; in particular the success-path update of a document that
already holds exactly the values being written reports failure, the
orchestrator treats that as a persistence failure, and — provided the
best-effort Failed write-back goes through — the document is transitioned
to Failed (if that write-back itself fails, the document keeps its previous
status; see the counterexample for the claim as originally stated). -/
theorem c10_noop_update (s : Store) (rid : Str) (d : Resume) (c : ResumeContent)
    (md : ResumeMetadata) (env : PipelineEnv) (fs : Nat) (emb : List ℚ)
    (hv : isValidObjectId rid = true) (hf : findDoc s rid = some d)
    (hp : parse_resume env.extract env.llm env.procTime env.extractedAt fs =
      .ok (c, md))
    (he : env.embed = .ok emb) (hvec : env.vectorOk = true)
    (hpr : env.primaryDbRaise = false)
    (hnoop : applyUpdate d (processedUpdate c md (strToL "resume_" ++ rid)) = d) :
    (∀ u : UpdateData, (update_resume s rid u).2 = true ↔ applyUpdate d u ≠ d) ∧
    (update_resume s rid (processedUpdate c md (strToL "resume_" ++ rid))).2 = false ∧
    (env.failedDbRaise = false →
      ∃ d1, findDoc (process_resume_task env fs rid s) rid = some d1 ∧
        d1.status = .failed) := by
  have hstat : d.status = .processed := by
    have := congrArg Resume.status hnoop
    simp [applyUpdate, processedUpdate] at this
    exact this.symm
  refine ⟨?_, ?_, ?_⟩
  · intro u
    rw [update_resume, if_pos hv, hf]
    by_cases hu : applyUpdate d u = d
    · simp [hu]
    · simp [hu]
  · rw [update_resume, if_pos hv, hf]
    simp [hnoop]
  · intro hfr
    rw [process_resume_task, hp, he]
    dsimp only
    rw [if_pos hvec, if_neg (by simp [hpr])]
    have hupd : update_resume s rid (processedUpdate c md (strToL "resume_" ++ rid)) =
        (s, false) := by
      rw [update_resume, if_pos hv, hf]
      simp [hnoop]
    rw [hupd]
    simp only [Bool.false_eq_true, if_false]
    exact ⟨_, failPath_writes hfr hv hf (by simp [hstat]), by simp⟩

def c10Rid : Str := strToL "507f1f77bcf86cd799439013"

/-- The content `parse_resume` produces from text `"abc"` on the fallback
path. -/
def c10Content : ResumeContent :=
  { text := strToL "abc", skills := [strToL "abc"], experience := []
    education := [], contact_info := { email := [], phone := [], linkedin := [] }
    summary := some (strToL "abc") }

def c10Md : ResumeMetadata :=
  { file_size := 3, pages := 1, processing_time := none, extracted_at := none }

/-- A document that already holds exactly the values the success-path
update writes (e.g. after a duplicate delivery of the same task). -/
def c10Doc : Resume :=
  { filename := strToL "r.pdf", upload_date := 7, status := .processed
    content := some c10Content, metadata := some c10Md
    vector_id := some (strToL "resume_" ++ c10Rid), error_message := none }

def c10Store : Store := [(c10Rid, c10Doc)]

/-- Run with the best-effort Failed write-back raising. -/
def c10EnvRaise : PipelineEnv :=
  { extract := .ok (strToL "abc", 1), llm := none, procTime := none
    extractedAt := none, embed := .ok [], vectorOk := true
    primaryDbRaise := false, failedDbRaise := true }

/-- Run with the best-effort Failed write-back succeeding. -/
def c10EnvOk : PipelineEnv :=
  { extract := .ok (strToL "abc", 1), llm := none, procTime := none
    extractedAt := none, embed := .ok [], vectorOk := true
    primaryDbRaise := false, failedDbRaise := false }

/-- Claim C10, as stated, is false on the code in one respect: the final
transition to Failed after a no-op primary update is only best-effort.  In
a run where the Failed write-back raises, the no-op update still reports
failure but the document remains Processed instead of being transitioned
to Failed. -/
theorem c10_counterexample :
    (update_resume c10Store c10Rid
      (processedUpdate c10Content c10Md (strToL "resume_" ++ c10Rid))).2 = false ∧
    findDoc (process_resume_task c10EnvRaise 3 c10Rid c10Store) c10Rid =
      some c10Doc ∧
    c10Doc.status = .processed := by decide

theorem c10_witness :
    (update_resume c10Store c10Rid
      (processedUpdate c10Content c10Md (strToL "resume_" ++ c10Rid))).2 = false ∧
    ∃ d1, findDoc (process_resume_task c10EnvOk 3 c10Rid c10Store) c10Rid =
      some d1 ∧ d1.status = .failed := by
  have h := c10_noop_update c10Store c10Rid c10Doc c10Content c10Md c10EnvOk 3 []
    (by decide) (by decide) rfl rfl rfl rfl (by decide)
  exact ⟨h.2.1, h.2.2 rfl⟩
